import Mathlib

/-!
# Verification of the `trade_vision` transport/session engine

A shallow embedding, in Lean 4, of the frame codec and session logic of the
`trade_vision` Rust crate (`src/protocol.rs`, `src/quote/session.rs`), together
with proofs settling the specification's claims about it.

Conventions of the embedding:
* Rust `&str`/`String` values are `List Char` (no Lean `String` is used, so all
  computations are by structural recursion and kernel-reducible).
* Rust `u32` is `Nat` with an explicit `< 2^32` bound where overflow matters.
* Rust `f64` values are modelled as `ℚ`: the engine only ever stores and copies
  them (no arithmetic), so any value type with a distinguished `0` is faithful.
* A Rust `panic!` (from `unwrap`/`expect`) is the `Except.error` constructor
  carrying a `RustPanic` tag naming the source's panic site.
-/

set_option linter.unusedVariables false

/-! ## Frame splitting (`protocol.rs::split_on_msg_length`, `parse_ws_packet`)

The source splits the raw packet on the literal token `~m~` (Rust
`str::split`, which keeps empty segments and scans left to right,
non-overlapping), then filters out segments that are empty or all ASCII
digits. -/

/-- Worker for Rust `packet.split("~m~")`: `acc` is the current segment,
reversed. Matches the leftmost occurrence of `~m~` first, exactly like
`str::split` with a three-character pattern. -/
def splitOnSepGo (acc : List Char) : List Char → List (List Char)
  | '~' :: 'm' :: '~' :: rest => acc.reverse :: splitOnSepGo [] rest
  | c :: rest => splitOnSepGo (c :: acc) rest
  | [] => [acc.reverse]

/-- Rust `packet.split("~m~").collect()`. -/
def splitOnSep (s : List Char) : List (List Char) := splitOnSepGo [] s

/-- The `is_digits` closure of `split_on_msg_length`:
`s.chars().all(|c| c.is_ascii_digit())`. -/
def is_digits (s : List Char) : Bool := s.all Char.isDigit

/-- Rust `protocol.rs::split_on_msg_length`: split on `~m~`, keep segments that are
neither empty nor all digits, in order. -/
def split_on_msg_length (packet : List Char) : List (List Char) :=
  (splitOnSep packet).filter (fun x => !x.isEmpty && !is_digits x)

/-- Rust `protocol.rs::parse_ws_packet`: delegates to `split_on_msg_length`. -/
def parse_ws_packet (packet : List Char) : List (List Char) :=
  split_on_msg_length packet

/-! ## Decimal rendering (`u32::to_string`, `format!` length markers) -/

/-- The ASCII digit character of `n % 10`. -/
def digitChar (n : Nat) : Char := Char.ofNat (48 + n % 10)

/-- Decimal digit characters of `n`, most significant first; `fuel`-structured
so that it is kernel-reducible (`fuel > n` always suffices). -/
def natCharsAux : Nat → Nat → List Char
  | 0, _ => []
  | fuel + 1, n =>
      if n < 10 then [digitChar n]
      else natCharsAux fuel (n / 10) ++ [digitChar (n % 10)]

/-- Rust `n.to_string()` for an unsigned integer `n`. -/
def natChars (n : Nat) : List Char := natCharsAux (n + 1) n

/-- Rust `str::len()`: UTF-8 byte size of one character. -/
def utf8Size (c : Char) : Nat :=
  if c.toNat < 0x80 then 1
  else if c.toNat < 0x800 then 2
  else if c.toNat < 0x10000 then 3
  else 4

/-- Rust `str::len()` of a string: the sum of its characters' UTF-8 sizes. -/
def utf8Len (s : List Char) : Nat := s.foldr (fun c a => utf8Size c + a) 0

/-- Rust `protocol.rs::format_ws_ping`:
`format!("~m~{}~m~~h~{}", num.to_string().len() + 3, num)`. -/
def format_ws_ping (num : Nat) : List Char :=
  ['~', 'm', '~'] ++ natChars ((natChars num).length + 3)
    ++ ['~', 'm', '~'] ++ ['~', 'h', '~'] ++ natChars num

/-! ### Digit-run facts -/

theorem digitChar_isDigit (n : Nat) : (digitChar n).isDigit = true := by
  have h : n % 10 < 10 := Nat.mod_lt _ (by omega)
  unfold digitChar
  interval_cases h : n % 10 <;> simp [h]

theorem natCharsAux_all_digits (fuel n : Nat) :
    is_digits (natCharsAux fuel n) = true := by
  induction fuel generalizing n with
  | zero => simp [natCharsAux, is_digits]
  | succ f ih =>
      unfold natCharsAux
      by_cases h : n < 10
      · simp [h, is_digits, digitChar_isDigit]
      · have := ih (n / 10)
        simp [h, is_digits] at this ⊢
        exact ⟨this, by have := digitChar_isDigit (n % 10); simpa [digitChar] using this⟩

theorem natChars_all_digits (n : Nat) : is_digits (natChars n) = true :=
  natCharsAux_all_digits (n + 1) n

theorem natChars_ne_nil (n : Nat) : natChars n ≠ [] := by
  unfold natChars natCharsAux
  by_cases h : n < 10 <;> simp [h]

/-! ### Splitting lemmas -/

/-- Rust `str::contains("~m~")`. -/
def hasMsep : List Char → Bool
  | '~' :: 'm' :: '~' :: _ => true
  | _ :: rest => hasMsep rest
  | [] => false

theorem splitOnSepGo_cons (acc : List Char) (c : Char) (rest : List Char)
    (hne : ∀ r1, c = '~' → rest = 'm' :: '~' :: r1 → False) :
    splitOnSepGo acc (c :: rest) = splitOnSepGo (c :: acc) rest := by
  rw [splitOnSepGo.eq_def]
  split
  · rename_i r1 heq
    injection heq with h1 h2
    exact (hne r1 h1 h2).elim
  · rename_i c' r' heq
    injection heq with h1 h2
    subst h1; subst h2; rfl
  · rename_i heq; cases heq

theorem hasMsep_cons (c : Char) (rest : List Char)
    (hne : ∀ r1, c = '~' → rest = 'm' :: '~' :: r1 → False) :
    hasMsep (c :: rest) = hasMsep rest := by
  rw [hasMsep.eq_def]
  split
  · rename_i r1 heq
    injection heq with h1 h2
    exact (hne r1 h1 h2).elim
  · rename_i c' r' heq
    injection heq with h1 h2
    subst h1; subst h2; rfl
  · rename_i heq; cases heq

/-- On a string free of `~m~`, the splitter yields a single segment. -/
theorem splitOnSepGo_nomsep (acc s : List Char) (h : hasMsep s = false) :
    splitOnSepGo acc s = [acc.reverse ++ s] := by
  induction acc, s using splitOnSepGo.induct with
  | case1 acc rest ih => simp [hasMsep] at h
  | case2 acc c rest hne ih =>
      rw [hasMsep_cons _ _ hne] at h
      rw [splitOnSepGo_cons _ _ _ hne, ih h]
      simp
  | case3 acc => simp [splitOnSepGo]

theorem isDigit_ne_tilde {c : Char} (h : c.isDigit = true) : c ≠ '~' := by
  intro hc; subst hc; simp at h

/-- A run of digits never contains part of a `~m~` marker: the splitter scans
past it to the marker that follows. -/
theorem splitOnSepGo_digits (d : List Char) (hd : is_digits d = true)
    (acc r : List Char) :
    splitOnSepGo acc (d ++ '~' :: 'm' :: '~' :: r)
      = (acc.reverse ++ d) :: splitOnSepGo [] r := by
  induction d generalizing acc with
  | nil => simp [splitOnSepGo]
  | cons c d' ih =>
      simp only [is_digits, List.all_cons, Bool.and_eq_true] at hd
      have hne : ∀ r1, c = '~' → d' ++ '~' :: 'm' :: '~' :: r = 'm' :: '~' :: r1 → False :=
        fun r1 h1 _ => (isDigit_ne_tilde hd.1) h1
      rw [List.cons_append, splitOnSepGo_cons _ _ _ hne, ih hd.2]
      simp

theorem hasMsep_digits (d : List Char) (hd : is_digits d = true) :
    hasMsep d = false := by
  induction d with
  | nil => simp [hasMsep]
  | cons c d' ih =>
      simp only [is_digits, List.all_cons, Bool.and_eq_true] at hd
      have hne : ∀ r1, c = '~' → d' = 'm' :: '~' :: r1 → False :=
        fun r1 h1 _ => (isDigit_ne_tilde hd.1) h1
      rw [hasMsep_cons _ _ hne]
      exact ih hd.2

/-! ### The specification-side splitter

`findMsep` locates the leftmost occurrence of the literal token `~m~` and
returns the segment before it and the remainder after it; `splitSpec` is
"repeatedly split on the literal token `~m~`" stated with it.  This pair is
the spec's description; `parse_ws_packet` above is the source's code.  The
refinement theorem for the split claim connects the two. -/

def findMsep : List Char → Option (List Char × List Char)
  | '~' :: 'm' :: '~' :: rest => some ([], rest)
  | c :: rest => (findMsep rest).map (fun pq => (c :: pq.1, pq.2))
  | [] => none

theorem findMsep_decomp (s : List Char) :
    ∀ p q, findMsep s = some (p, q) → s = p ++ '~' :: 'm' :: '~' :: q := by
  induction s using findMsep.induct with
  | case1 rest =>
      intro p q h
      simp [findMsep] at h
      simp [h.1.symm, h.2.symm]
  | case2 c rest hne ih =>
      intro p q h
      rw [show findMsep (c :: rest) = (findMsep rest).map (fun pq => (c :: pq.1, pq.2)) from by
            rw [findMsep.eq_def]
            split
            · rename_i r1 heq
              injection heq with h1 h2
              exact (hne r1 h1 h2).elim
            · rename_i c' r' heq
              injection heq with h1 h2
              subst h1; subst h2; rfl
            · rename_i heq; cases heq] at h
      match hrec : findMsep rest with
      | none => rw [hrec] at h; simp at h
      | some (p', q') =>
          rw [hrec] at h
          simp at h
          rw [← h.1, ← h.2, ih p' q' hrec]
          simp
  | case3 => intro p q h; simp [findMsep] at h

/-- Spec: "repeatedly split on the literal token `~m~`". -/
def splitSpec (s : List Char) : List (List Char) :=
  match h : findMsep s with
  | none => [s]
  | some (p, q) => p :: splitSpec q
termination_by s.length
decreasing_by
  have := findMsep_decomp s p q h
  subst this
  simp
  omega

/-- The source's accumulator-based splitter agrees with the spec-side
leftmost-occurrence splitter. -/
theorem splitOnSepGo_eq_splitSpec_aux (acc s : List Char) :
    splitOnSepGo acc s
      = match findMsep s with
        | none => [acc.reverse ++ s]
        | some (p, q) => (acc.reverse ++ p) :: splitOnSepGo [] q := by
  induction acc, s using splitOnSepGo.induct with
  | case1 acc rest ih => simp [splitOnSepGo, findMsep]
  | case2 acc c rest hne ih =>
      rw [splitOnSepGo_cons _ _ _ hne, ih]
      rw [show findMsep (c :: rest) = (findMsep rest).map (fun pq => (c :: pq.1, pq.2)) from by
            rw [findMsep.eq_def]
            split
            · rename_i r1 heq
              injection heq with h1 h2
              exact (hne r1 h1 h2).elim
            · rename_i c' r' heq
              injection heq with h1 h2
              subst h1; subst h2; rfl
            · rename_i heq; cases heq]
      match hrec : findMsep rest with
      | none => simp
      | some (p', q') => simp
  | case3 acc => simp [splitOnSepGo, findMsep]

theorem splitSpec_none {s : List Char} (h : findMsep s = none) :
    splitSpec s = [s] := by
  rw [splitSpec.eq_def]
  split
  · rfl
  · rename_i p q heq
    rw [h] at heq; cases heq

theorem splitSpec_some {s p q : List Char} (h : findMsep s = some (p, q)) :
    splitSpec s = p :: splitSpec q := by
  rw [splitSpec.eq_def]
  split
  · rename_i heq; rw [h] at heq; cases heq
  · rename_i p' q' heq
    rw [h] at heq
    injection heq with heq
    injection heq with h1 h2
    subst h1; subst h2; rfl

theorem splitOnSep_eq_splitSpec (s : List Char) : splitOnSep s = splitSpec s := by
  rw [splitOnSep]
  induction s using splitSpec.induct with
  | case1 s h =>
      rw [splitOnSepGo_eq_splitSpec_aux, h, splitSpec_none h]
      simp
  | case2 s p q h ih =>
      rw [splitOnSepGo_eq_splitSpec_aux, h, splitSpec_some h]
      simp [ih]

/-! ## Claim C5 — the splitter returns exactly the non-marker segments -/

/-- C5: for every input buffer, `parse_ws_packet` returns exactly the segments
obtained by splitting the buffer on the literal token `~m~` that are neither
empty nor composed entirely of decimal digits, in original order; splitting
`"~m~4~m~~h~1"` yields exactly `["~h~1"]`, and splitting three concatenated
length-prefixed JSON frames yields exactly the three payloads in order. -/
theorem parse_ws_packet_splits_on_msep :
    (∀ s : List Char,
        parse_ws_packet s = (splitSpec s).filter (fun x => !x.isEmpty && !is_digits x))
    ∧ parse_ws_packet ['~', 'm', '~', '4', '~', 'm', '~', '~', 'h', '~', '1']
        = [['~', 'h', '~', '1']]
    ∧ parse_ws_packet
        (['~', 'm', '~', '9', '~', 'm', '~', '{', '"', 'm', '"', ':', '"', 'a', '"', '}']
          ++ ['~', 'm', '~', '9', '~', 'm', '~', '{', '"', 'm', '"', ':', '"', 'b', '"', '}']
          ++ ['~', 'm', '~', '9', '~', 'm', '~', '{', '"', 'm', '"', ':', '"', 'c', '"', '}'])
        = [['{', '"', 'm', '"', ':', '"', 'a', '"', '}'],
           ['{', '"', 'm', '"', ':', '"', 'b', '"', '}'],
           ['{', '"', 'm', '"', ':', '"', 'c', '"', '}']] := by
  refine ⟨fun s => ?_, by decide, by decide⟩
  rw [parse_ws_packet, split_on_msg_length, splitOnSep_eq_splitSpec]

/-! ## Claim C10 — an all-digit payload is indistinguishable from a marker -/

/-- C10: for every well-formed frame `~m~N~m~payload` whose payload consists
only of decimal digits, the splitter silently discards the payload; in
particular `parse_ws_packet("~m~3~m~123")` is the empty list. -/
theorem parse_ws_packet_drops_digit_payload :
    (∀ payload : List Char, is_digits payload = true →
        parse_ws_packet
          (['~', 'm', '~'] ++ natChars (utf8Len payload) ++ ['~', 'm', '~'] ++ payload) = [])
    ∧ parse_ws_packet ['~', 'm', '~', '3', '~', 'm', '~', '1', '2', '3'] = [] := by
  refine ⟨fun payload hp => ?_, by decide⟩
  rw [parse_ws_packet, split_on_msg_length, splitOnSep]
  have hshape : ['~', 'm', '~'] ++ natChars (utf8Len payload) ++ ['~', 'm', '~'] ++ payload
      = '~' :: 'm' :: '~' :: (natChars (utf8Len payload) ++ '~' :: 'm' :: '~' :: payload) := by
    simp
  rw [hshape]
  rw [show splitOnSepGo []
        ('~' :: 'm' :: '~' :: (natChars (utf8Len payload) ++ '~' :: 'm' :: '~' :: payload))
      = [].reverse :: splitOnSepGo [] (natChars (utf8Len payload) ++ '~' :: 'm' :: '~' :: payload)
      from rfl]
  rw [splitOnSepGo_digits _ (natChars_all_digits _) _ _,
      splitOnSepGo_nomsep _ _ (hasMsep_digits _ hp)]
  simp [natChars_all_digits, hp]

/-- Witness for C10 at the frame `~m~3~m~123`. -/
theorem parse_ws_packet_drops_digit_payload_witness :
    parse_ws_packet
      (['~', 'm', '~'] ++ natChars (utf8Len ['1', '2', '3']) ++ ['~', 'm', '~']
        ++ ['1', '2', '3']) = [] :=
  parse_ws_packet_drops_digit_payload.1 ['1', '2', '3'] (by decide)

/-! ## Claim C6 — the ping formula -/

/-- Spec formula: `format_ping(n) = ~m~<L>~m~~h~<n>` with
`L = len(str(n)) + 3`. -/
def format_ping_spec (n : Nat) : List Char :=
  ['~', 'm', '~'] ++ natChars ((natChars n).length + 3)
    ++ ['~', 'm', '~', '~', 'h', '~'] ++ natChars n

/-- C6: `format_ws_ping` matches the spec formula exactly, and agrees with the
three test-pinned values. -/
theorem format_ws_ping_formula :
    (∀ n : Nat, format_ws_ping n = format_ping_spec n)
    ∧ format_ws_ping 1 = ['~', 'm', '~', '4', '~', 'm', '~', '~', 'h', '~', '1']
    ∧ format_ws_ping 22 = ['~', 'm', '~', '5', '~', 'm', '~', '~', 'h', '~', '2', '2']
    ∧ format_ws_ping 333 = ['~', 'm', '~', '6', '~', 'm', '~', '~', 'h', '~', '3', '3', '3'] := by
  refine ⟨fun n => ?_, by decide, by decide, by decide⟩
  simp [format_ws_ping, format_ping_spec]

/-! ## The structured-message data model (`protocol.rs`)

`WSPacket<'a>` has `m: &'a str` and `p: ArrayData<'a>` with
`identifier: &'a str` and `data: Option<WSVecValues<'a>>`
(`#[skip_serializing_none]`).  The embedding covers the `WSVecValues::String`
variant; the `InnerPriceData` variant consists almost entirely of `f64`
fields whose JSON round-trip is floating-point behaviour outside this shallow
embedding, and no claim quantifies over it.  Strings are `List Char`. -/

/-- Rust `protocol.rs::ArrayData` restricted to the string fragment: `data` is
`Option<WSVecValues::String>`. -/
structure ArrayData where
  identifier : List Char
  data : Option (List Char)
deriving DecidableEq, Repr

/-- Rust `protocol.rs::WSPacket`. -/
structure WSPacket where
  m : List Char
  p : ArrayData
deriving DecidableEq, Repr

/-- Rust `protocol.rs::into_inner_identifier`. -/
def into_inner_identifier (val : List Char) : ArrayData := ⟨val, none⟩

/-! ### Serialization (`serde_json::to_string` for the derived impls)

`serde_json` escapes `"` as `\"`, `\` as `\\`, the five named control
characters as `\b`/`\t`/`\n`/`\f`/`\r`, and any other control character
(below U+0020) as a lowercase `\u00XX` escape; all other characters are
emitted verbatim.  A derived struct serializes as a JSON object with its
fields in declaration order; `skip_serializing_none` omits a `None` field. -/

/-- Lowercase hexadecimal digit character for `n < 16`. -/
def hexDigitChar (n : Nat) : Char :=
  if n < 10 then Char.ofNat (48 + n) else Char.ofNat (87 + n)

/-- One character, JSON-escaped the way `serde_json` writes it. -/
def escapeChar (c : Char) : List Char :=
  if c = '"' then ['\\', '"']
  else if c = '\\' then ['\\', '\\']
  else if c.toNat < 0x20 then
    if c = '\x08' then ['\\', 'b']
    else if c = '\x09' then ['\\', 't']
    else if c = '\x0a' then ['\\', 'n']
    else if c = '\x0c' then ['\\', 'f']
    else if c = '\x0d' then ['\\', 'r']
    else ['\\', 'u', '0', '0', hexDigitChar (c.toNat / 16), hexDigitChar (c.toNat % 16)]
  else [c]

def escapeStr : List Char → List Char
  | [] => []
  | c :: rest => escapeChar c ++ escapeStr rest

/-- A JSON string literal: quote, escaped content, quote. -/
def quoteStr (s : List Char) : List Char := '"' :: (escapeStr s ++ ['"'])

def identifierKey : List Char := ['i', 'd', 'e', 'n', 't', 'i', 'f', 'i', 'e', 'r']

def dataKey : List Char := ['d', 'a', 't', 'a']

/-- Model of `serde_json::to_string` on an `ArrayData` value: a JSON object with the
`identifier` field and, unless `data` is `None` (`skip_serializing_none`), the
`data` field; the untagged `WSVecValues::String` serializes as a bare JSON
string. -/
def serArrayData (a : ArrayData) : List Char :=
  '{' :: (quoteStr identifierKey ++ (':' :: (quoteStr a.identifier
    ++ ((match a.data with
         | none => []
         | some d => ',' :: (quoteStr dataKey ++ (':' :: quoteStr d)))
        ++ ['}']))))

/-- Model of `serde_json::to_string` on a `WSPacket` value. -/
def serWSPacket (w : WSPacket) : List Char :=
  '{' :: ('"' :: ('m' :: ('"' :: (':' :: (quoteStr w.m
    ++ (',' :: ('"' :: ('p' :: ('"' :: (':' :: (serArrayData w.p ++ ['}'])))))))))))

/-- Rust `WSPacket::format`: `format!("~m~{}~m~{}", json.len(), json)` where `json`
is the serde serialization (whose `unwrap` cannot fail for these types) and
`len` is the UTF-8 byte length. -/
def WSPacket.format (w : WSPacket) : List Char :=
  ['~', 'm', '~'] ++ (natChars (utf8Len (serWSPacket w)) ++ (['~', 'm', '~'] ++ serWSPacket w))

/-! ### Parsing (`serde_json::from_str::<WSPacket>`)

A genuine JSON grammar parser over characters (strings with full escape
handling, objects, arrays, `null`/`true`/`false`, numbers as raw atoms),
followed by the derived deserializer semantics: a struct accepts a JSON
object (fields in any order, unknown fields ignored, duplicates rejected,
a missing `Option` field defaulting to `None`) or a JSON sequence of its
fields in declaration order.  Two deliberate, documented restrictions of the
model: insignificant whitespace is not consumed (the codec never emits any),
and a `\uXXXX` escape denoting a surrogate is rejected rather than paired
(the codec only emits `\u00XX` below U+0020).

A `&'a str` field (serde's implicit `#[serde(borrow)]` for `&str`) can only
be produced from a JSON string containing **no escape sequences** — on an
escaped string `serde_json` must unescape into a transient buffer and the
`&str` visitor rejects it.  The parser therefore records, for every string,
whether any escape occurred. -/

/-- A parsed JSON value.  `str` carries the decoded content and whether the
raw text used any escape sequence; `num` keeps the raw numeral atom. -/
inductive JValue where
  | str (content : List Char) (escaped : Bool)
  | num (raw : List Char)
  | bool (b : Bool)
  | null
  | arr (elems : List JValue)
  | obj (members : List (List Char × JValue))

def hexVal (c : Char) : Option Nat :=
  if '0' ≤ c ∧ c ≤ '9' then some (c.toNat - 48)
  else if 'a' ≤ c ∧ c ≤ 'f' then some (c.toNat - 87)
  else if 'A' ≤ c ∧ c ≤ 'F' then some (c.toNat - 55)
  else none

def unescapeChar : Char → Option Char
  | '"' => some '"'
  | '\\' => some '\\'
  | '/' => some '/'
  | 'b' => some '\x08'
  | 'f' => some '\x0c'
  | 'n' => some '\x0a'
  | 'r' => some '\x0d'
  | 't' => some '\x09'
  | _ => none

/-- Parse the body of a JSON string after the opening quote; returns the
decoded content, whether any escape sequence occurred, and the remainder
after the closing quote.  Raw control characters are invalid in a JSON
string. -/
def parseStringBody : List Char → Option ((List Char × Bool) × List Char)
  | '"' :: rest => some (([], false), rest)
  | '\\' :: 'u' :: h1 :: h2 :: h3 :: h4 :: rest =>
      (match hexVal h1, hexVal h2, hexVal h3, hexVal h4 with
       | some a, some b, some c, some d =>
           let n := ((a * 16 + b) * 16 + c) * 16 + d
           if n.isValidChar then
             (parseStringBody rest).map (fun pr => ((Char.ofNat n :: pr.1.1, true), pr.2))
           else none
       | _, _, _, _ => none)
  | '\\' :: e :: rest =>
      (match unescapeChar e with
       | some c => (parseStringBody rest).map (fun pr => ((c :: pr.1.1, true), pr.2))
       | none => none)
  | c :: rest =>
      if c.toNat < 0x20 then none
      else (parseStringBody rest).map (fun pr => ((c :: pr.1.1, pr.1.2), pr.2))
  | [] => none

/-- Characters that may form part of a JSON numeral atom. -/
def isNumChar (c : Char) : Bool :=
  c.isDigit || c == '-' || c == '+' || c == '.' || c == 'e' || c == 'E'

def takeNumChars : List Char → (List Char × List Char)
  | [] => ([], [])
  | c :: rest =>
      if isNumChar c then
        let pr := takeNumChars rest
        (c :: pr.1, pr.2)
      else ([], c :: rest)

/-- Which production the fueled JSON parser is reading. -/
inductive PMode where
  | value
  | members
  | elems

/-- The fueled JSON parser.  `members`/`elems` parse the one-or-more
comma-separated interiors of objects/arrays and return them already wrapped
as `.obj`/`.arr`; the empty cases are handled in `value`.  Every recursive
call consumes at least one character first, so any fuel exceeding the input
length is enough. -/
def parseJ : Nat → PMode → List Char → Option (JValue × List Char)
  | 0, _, _ => none
  | fuel + 1, .value, s =>
      match s with
      | '"' :: r => (parseStringBody r).map (fun pr => (.str pr.1.1 pr.1.2, pr.2))
      | '{' :: r =>
          (match r with
           | '}' :: r2 => some (.obj [], r2)
           | _ => parseJ fuel .members r)
      | '[' :: r =>
          (match r with
           | ']' :: r2 => some (.arr [], r2)
           | _ => parseJ fuel .elems r)
      | 'n' :: 'u' :: 'l' :: 'l' :: r => some (.null, r)
      | 't' :: 'r' :: 'u' :: 'e' :: r => some (.bool true, r)
      | 'f' :: 'a' :: 'l' :: 's' :: 'e' :: r => some (.bool false, r)
      | c :: r =>
          if c == '-' || c.isDigit then
            let pr := takeNumChars (c :: r)
            some (.num pr.1, pr.2)
          else none
      | [] => none
  | fuel + 1, .members, s =>
      match s with
      | '"' :: r =>
          (parseStringBody r).bind (fun key =>
            match key.2 with
            | ':' :: r2 =>
                (parseJ fuel .value r2).bind (fun vv =>
                  match vv.2 with
                  | ',' :: r3 =>
                      (parseJ fuel .members r3).bind (fun mm =>
                        match mm.1 with
                        | .obj ms => some (.obj ((key.1.1, vv.1) :: ms), mm.2)
                        | _ => none)
                  | '}' :: r3 => some (.obj [(key.1.1, vv.1)], r3)
                  | _ => none)
            | _ => none)
      | _ => none
  | fuel + 1, .elems, s =>
      (parseJ fuel .value s).bind (fun vv =>
        match vv.2 with
        | ',' :: r2 =>
            (parseJ fuel .elems r2).bind (fun aa =>
              match aa.1 with
              | .arr es => some (.arr (vv.1 :: es), aa.2)
              | _ => none)
        | ']' :: r2 => some (.arr [vv.1], r2)
        | _ => none)

/-- A borrowed `&str` target: only an escape-free JSON string can produce
one. -/
def getBorrowedStr : JValue → Option (List Char)
  | .str s false => some s
  | _ => none

/-- Deserialize `Option<WSVecValues>` (inside a present `data` field):
`null` is `None`; the untagged `String` variant needs a borrowed string; the
`InnerPriceData` variant is outside the modelled fragment and rejected. -/
def deserOptWSVec : JValue → Option (Option (List Char))
  | .null => some none
  | .str s false => some (some s)
  | _ => none

/-- Field loop of the derived `ArrayData` deserializer over a JSON object:
unknown keys are ignored, duplicate keys rejected, `identifier` required,
`data` defaults to `None`. -/
def deserArrayDataFields :
    List (List Char × JValue) → Option (List Char) → Option (Option (List Char)) →
    Option ArrayData
  | [], idAcc, dataAcc => idAcc.map (fun i => ⟨i, dataAcc.getD none⟩)
  | (k, v) :: rest, idAcc, dataAcc =>
      if k = identifierKey then
        match idAcc with
        | some _ => none
        | none => (getBorrowedStr v).bind (fun s => deserArrayDataFields rest (some s) dataAcc)
      else if k = dataKey then
        match dataAcc with
        | some _ => none
        | none => (deserOptWSVec v).bind (fun d => deserArrayDataFields rest idAcc (some d))
      else deserArrayDataFields rest idAcc dataAcc

/-- Derived `ArrayData` deserializer: a JSON object, or a sequence of the two
fields in declaration order (a missing sequence element is an
`invalid_length` error, even for the `Option` field). -/
def deserArrayData : JValue → Option ArrayData
  | .obj ms => deserArrayDataFields ms none none
  | .arr [iv, dv] =>
      (getBorrowedStr iv).bind (fun s => (deserOptWSVec dv).map (fun d => ⟨s, d⟩))
  | _ => none

/-- Field loop of the derived `WSPacket` deserializer. -/
def deserWSPacketFields :
    List (List Char × JValue) → Option (List Char) → Option ArrayData → Option WSPacket
  | [], mAcc, pAcc =>
      match mAcc, pAcc with
      | some mv, some pv => some ⟨mv, pv⟩
      | _, _ => none
  | (k, v) :: rest, mAcc, pAcc =>
      if k = ['m'] then
        match mAcc with
        | some _ => none
        | none => (getBorrowedStr v).bind (fun s => deserWSPacketFields rest (some s) pAcc)
      else if k = ['p'] then
        match pAcc with
        | some _ => none
        | none => (deserArrayData v).bind (fun a => deserWSPacketFields rest mAcc (some a))
      else deserWSPacketFields rest mAcc pAcc

/-- Derived `WSPacket` deserializer: a JSON object or a two-element
sequence. -/
def deserWSPacket : JValue → Option WSPacket
  | .obj ms => deserWSPacketFields ms none none
  | .arr [mv, pv] =>
      (getBorrowedStr mv).bind (fun s => (deserArrayData pv).map (fun a => ⟨s, a⟩))
  | _ => none

/-- Model of `serde_json::from_str::<WSPacket>`: parse one JSON value covering the
whole input, then run the derived deserializer. -/
def from_str (s : List Char) : Option WSPacket :=
  match parseJ (s.length + 1) .value s with
  | some (v, []) => deserWSPacket v
  | _ => none

/-! ## Classification (`protocol.rs::parse_each_packet`) -/

/-- Rust `str::contains("~h~")`. -/
def hasHsep : List Char → Bool
  | '~' :: 'h' :: '~' :: _ => true
  | _ :: rest => hasHsep rest
  | [] => false

/-- Rust `packet.replace("~h~", "")`: remove every non-overlapping occurrence,
scanning left to right. -/
def removeHsep : List Char → List Char
  | '~' :: 'h' :: '~' :: rest => removeHsep rest
  | c :: rest => c :: removeHsep rest
  | [] => []

def digitsToNat (s : List Char) : Nat :=
  s.foldl (fun a c => a * 10 + (c.toNat - 48)) 0

/-- Rust `str::parse::<u32>()`: an optional leading `+`, then one or more
ASCII digits, value at most `u32::MAX`; anything else is an error. -/
def parseU32 (s : List Char) : Option Nat :=
  let ds := match s with
            | '+' :: r => r
            | _ => s
  if ds.isEmpty then none
  else if ds.all Char.isDigit then
    if digitsToNat ds < 4294967296 then some (digitsToNat ds) else none
  else none

deriving instance DecidableEq for Except

/-- The two `expect` panic sites of `parse_each_packet`:
`pingParse` is "Error turning ping into number" and
`serdeParse` is "Cannot turn packet into WSPacket using serde". -/
inductive RustPanic where
  | pingParse
  | serdeParse
deriving DecidableEq, Repr

/-- Rust `protocol.rs::Packet`. -/
inductive Packet where
  | Ping (num : Nat)
  | WSPacket (packet : WSPacket)
  | Other (s : List Char)
deriving DecidableEq, Repr

/-- Rust `protocol.rs::parse_each_packet`.  A payload containing `~h~` is parsed as
a ping after deleting every `~h~`, and a failed `u32` parse **panics**
(`expect`); otherwise a payload containing the character `m` is handed to
serde, and a failed parse **panics** (`expect`); only a payload with no `~h~`
and no `m` at all falls through to `Other`.  The `Except.error` constructor
is the panic. -/
def parse_each_packet (packet : List Char) : Except RustPanic Packet :=
  if hasHsep packet then
    match parseU32 (removeHsep packet) with
    | some num => .ok (.Ping num)
    | none => .error .pingParse
  else if packet.contains 'm' then
    match from_str packet with
    | some w => .ok (.WSPacket w)
    | none => .error .serdeParse
  else .ok (.Other packet)

/-! ## Claim C1 — classification never panics (refuted) -/

/-- C1 counterexample: the payload `"m"` contains no `~h~` and fails the JSON
schema, yet classification panics (`expect`) instead of returning
`Opaque("m")`; and the payload `"~h~x"` (non-numeric remainder) panics
instead of failing with a recoverable error. -/
theorem parse_each_packet_panics_cex :
    parse_each_packet ['m'] = .error .serdeParse
    ∧ parse_each_packet ['~', 'h', '~', 'x'] = .error .pingParse := by
  constructor
  · decide
  · decide

/-- C1 amended: a payload with no `~h~` falls back to `Opaque` **only when it
also contains no `m` character**; a payload containing `m` that fails the
schema panics, as does a payload containing `~h~` whose `~h~`-stripped
remainder is not a valid `u32`. -/
theorem parse_each_packet_amended :
    (∀ p : List Char, hasHsep p = false → p.contains 'm' = false →
        parse_each_packet p = .ok (.Other p))
    ∧ (∀ p : List Char, hasHsep p = false → p.contains 'm' = true →
        from_str p = none → parse_each_packet p = .error .serdeParse)
    ∧ (∀ p : List Char, hasHsep p = true → parseU32 (removeHsep p) = none →
        parse_each_packet p = .error .pingParse) := by
  refine ⟨fun p h1 h2 => ?_, fun p h1 h2 h3 => ?_, fun p h1 h2 => ?_⟩
  · have h2' : ¬('m' ∈ p) := by simpa using h2
    simp [parse_each_packet, h1, h2']
  · have h2' : 'm' ∈ p := by simpa using h2
    simp [parse_each_packet, h1, h2', h3]
  · simp [parse_each_packet, h1, h2]

/-- Witness for the amended C1 at concrete payloads. -/
theorem parse_each_packet_amended_witness :
    parse_each_packet ['x'] = .ok (.Other ['x'])
    ∧ parse_each_packet ['{', 'm'] = .error .serdeParse
    ∧ parse_each_packet ['~', 'h', '~', '!'] = .error .pingParse :=
  ⟨parse_each_packet_amended.1 ['x'] (by decide) (by decide),
   parse_each_packet_amended.2.1 ['{', 'm'] (by decide) (by decide) (by decide),
   parse_each_packet_amended.2.2 ['~', 'h', '~', '!'] (by decide) (by decide)⟩

/-! ## Claim C2 — encode/split/classify round trip

The round trip holds exactly on the fragment the counterexamples leave:
messages whose strings need no JSON escaping (serde cannot deserialize a
borrowed `&str` from an escaped string) and whose serialization contains
neither `~h~` (classified as a ping and panicking) nor `~m~` (split apart by
the frame splitter). -/

structure Session where
  session_id : List Char
  data : List (List Char × (ℚ × ℚ))
deriving DecidableEq

/-- Model of `HashMap::entry(k).and_modify(f).or_insert(d)` on the association-list
model: modify in place when the key is present, append otherwise. -/
def hm_entry_mod_or_insert (m : List (List Char × (ℚ × ℚ))) (k : List Char)
    (f : ℚ × ℚ → ℚ × ℚ) (d : ℚ × ℚ) : List (List Char × (ℚ × ℚ)) :=
  match m with
  | [] => [(k, d)]
  | (k', v) :: rest =>
      if k' = k then (k', f v) :: rest
      else (k', v) :: hm_entry_mod_or_insert rest k f d

/-- Rust `Session::get_data`: `self.data.get(symbol).map_or((0.0, 0.0), ...)`. -/
def Session.get_data (s : Session) (symbol : List Char) : ℚ × ℚ :=
  (List.lookup symbol s.data).getD (0, 0)

/-- Rust `Session::set_data_price`:
`entry(symbol).and_modify(|x| *x = (data, x.1)).or_insert((data, 0.0))`. -/
def Session.set_data_price (s : Session) (symbol : List Char) (v : ℚ) : Session :=
  { s with data := hm_entry_mod_or_insert s.data symbol (fun x => (v, x.2)) (v, 0) }

/-- Rust `Session::set_data_ta`:
`entry(symbol).and_modify(|x| *x = (x.0, data)).or_insert((0.0, data))`. -/
def Session.set_data_ta (s : Session) (symbol : List Char) (v : ℚ) : Session :=
  { s with data := hm_entry_mod_or_insert s.data symbol (fun x => (x.1, v)) (0, v) }

def quoteAddSymbolsM : List Char :=
  ['q', 'u', 'o', 't', 'e', '_', 'a', 'd', 'd', '_', 's', 'y', 'm', 'b', 'o', 'l', 's']

/-- Rust `Session::add_symbol` takes `&self`: it can send a frame but **cannot
modify the store** (nothing inserts the key).  It sends the
`quote_add_symbols` frame iff no key of the store equals `to_add`; the
returned list is what it enqueues. -/
def Session.add_symbol (s : Session) (to_add : List Char) : List (List Char) :=
  if !(s.data.any (fun e => e.1 == to_add)) then
    [WSPacket.format ⟨quoteAddSymbolsM, ⟨s.session_id, some to_add⟩⟩]
  else []

/-! ### Association-list lemmas -/

theorem lookup_hm_entry_self (m : List (List Char × (ℚ × ℚ))) (k : List Char)
    (f : ℚ × ℚ → ℚ × ℚ) (d : ℚ × ℚ) :
    List.lookup k (hm_entry_mod_or_insert m k f d)
      = some (match List.lookup k m with
              | some v => f v
              | none => d) := by
  induction m with
  | nil => simp [hm_entry_mod_or_insert, List.lookup]
  | cons e rest ih =>
      obtain ⟨k', v⟩ := e
      by_cases h : k' = k
      · subst h
        simp [hm_entry_mod_or_insert, List.lookup]
      · have hb : (k == k') = false := beq_eq_false_iff_ne.mpr (fun hc => h hc.symm)
        simp [hm_entry_mod_or_insert, h, List.lookup, hb, ih]

theorem lookup_hm_entry_other (m : List (List Char × (ℚ × ℚ))) (k other : List Char)
    (f : ℚ × ℚ → ℚ × ℚ) (d : ℚ × ℚ) (h : other ≠ k) :
    List.lookup other (hm_entry_mod_or_insert m k f d) = List.lookup other m := by
  induction m with
  | nil => simp [hm_entry_mod_or_insert, List.lookup, beq_eq_false_iff_ne.mpr h]
  | cons e rest ih =>
      obtain ⟨k', v⟩ := e
      by_cases hk : k' = k
      · subst hk
        have hb : (other == k') = false := beq_eq_false_iff_ne.mpr h
        simp [hm_entry_mod_or_insert, List.lookup, hb]
      · by_cases ho : other = k'
        · subst ho
          simp [hm_entry_mod_or_insert, hk, List.lookup]
        · have hb : (other == k') = false := beq_eq_false_iff_ne.mpr ho
          simp [hm_entry_mod_or_insert, hk, List.lookup, hb, ih]

theorem any_key_eq_lookup_isSome (m : List (List Char × (ℚ × ℚ))) (k : List Char) :
    m.any (fun e => e.1 == k) = (List.lookup k m).isSome := by
  induction m with
  | nil => simp [List.lookup]
  | cons e rest ih =>
      obtain ⟨k', v⟩ := e
      by_cases h : k' = k
      · subst h
        simp [List.lookup]
      · have h1 : (k' == k) = false := beq_eq_false_iff_ne.mpr h
        have h2 : (k == k') = false := beq_eq_false_iff_ne.mpr (fun hc => h hc.symm)
        simp [List.lookup, h1, h2, ih]

/-! ## Claim C8 — the setters write one component and nothing else -/

/-- C8: `set_data_price` sets the price component of the symbol's entry (to
`(v, old.2)`, inserting `(v, 0)` when absent — in both cases the new entry is
`(v, (get_data s sym).2)`) and leaves every other symbol's entry unchanged;
`set_data_ta` is the mirror image on the indicator component. -/
theorem set_data_frame_effect (s : Session) (symbol : List Char) (v : ℚ) :
    List.lookup symbol (s.set_data_price symbol v).data
        = some (v, (s.get_data symbol).2)
    ∧ (∀ other, other ≠ symbol →
        List.lookup other (s.set_data_price symbol v).data = List.lookup other s.data)
    ∧ List.lookup symbol (s.set_data_ta symbol v).data
        = some ((s.get_data symbol).1, v)
    ∧ (∀ other, other ≠ symbol →
        List.lookup other (s.set_data_ta symbol v).data = List.lookup other s.data) := by
  refine ⟨?_, fun other h => ?_, ?_, fun other h => ?_⟩
  · rw [Session.set_data_price, lookup_hm_entry_self]
    cases hl : List.lookup symbol s.data <;> simp [Session.get_data, hl]
  · rw [Session.set_data_price, lookup_hm_entry_other _ _ _ _ _ h]
  · rw [Session.set_data_ta, lookup_hm_entry_self]
    cases hl : List.lookup symbol s.data <;> simp [Session.get_data, hl]
  · rw [Session.set_data_ta, lookup_hm_entry_other _ _ _ _ _ h]

/-- Witness for C8 on a concrete store holding `A ↦ (1, 2)` and `B ↦ (3, 4)`,
updated at `A` with value `5`. -/
theorem set_data_frame_effect_witness :
    List.lookup ['A']
        ((Session.set_data_price ⟨['q', 's'], [(['A'], (1, 2)), (['B'], (3, 4))]⟩ ['A'] 5).data)
        = some (5, (Session.get_data ⟨['q', 's'], [(['A'], (1, 2)), (['B'], (3, 4))]⟩ ['A']).2)
    ∧ List.lookup ['B']
        ((Session.set_data_price ⟨['q', 's'], [(['A'], (1, 2)), (['B'], (3, 4))]⟩ ['A'] 5).data)
        = List.lookup ['B'] [(['A'], ((1 : ℚ), (2 : ℚ))), (['B'], (3, 4))]
    ∧ List.lookup ['A']
        ((Session.set_data_ta ⟨['q', 's'], [(['A'], (1, 2)), (['B'], (3, 4))]⟩ ['A'] 5).data)
        = some ((Session.get_data ⟨['q', 's'], [(['A'], (1, 2)), (['B'], (3, 4))]⟩ ['A']).1, 5)
    ∧ List.lookup ['B']
        ((Session.set_data_ta ⟨['q', 's'], [(['A'], (1, 2)), (['B'], (3, 4))]⟩ ['A'] 5).data)
        = List.lookup ['B'] [(['A'], ((1 : ℚ), (2 : ℚ))), (['B'], (3, 4))] :=
  ⟨(set_data_frame_effect ⟨['q', 's'], [(['A'], (1, 2)), (['B'], (3, 4))]⟩ ['A'] 5).1,
   (set_data_frame_effect ⟨['q', 's'], [(['A'], (1, 2)), (['B'], (3, 4))]⟩ ['A'] 5).2.1
     ['B'] (by decide),
   (set_data_frame_effect ⟨['q', 's'], [(['A'], (1, 2)), (['B'], (3, 4))]⟩ ['A'] 5).2.2.1,
   (set_data_frame_effect ⟨['q', 's'], [(['A'], (1, 2)), (['B'], (3, 4))]⟩ ['A'] 5).2.2.2
     ['B'] (by decide)⟩

/-! ## Claim C9 — `get_data` returns the cache or the default, totally -/

/-- C9: `get_data` returns the cached pair when the symbol is a key of the
store and `(0, 0)` when it is not; it is a total function of an unmodified
session (`&self`), so it never fails and never changes the store. -/
theorem get_data_cached_or_default (s : Session) (symbol : List Char) :
    (∀ pr, List.lookup symbol s.data = some pr → s.get_data symbol = pr)
    ∧ (List.lookup symbol s.data = none → s.get_data symbol = (0, 0)) := by
  constructor
  · intro pr h
    simp [Session.get_data, h]
  · intro h
    simp [Session.get_data, h]

/-- Witness for C9: a cached symbol returns its pair, and the unknown symbol
`UNKNOWN:X` returns `(0, 0)`. -/
theorem get_data_cached_or_default_witness :
    Session.get_data ⟨['q', 's'], [(['A'], (7, 9))]⟩ ['A'] = (7, 9)
    ∧ Session.get_data ⟨['q', 's'], [(['A'], (7, 9))]⟩
        ['U', 'N', 'K', 'N', 'O', 'W', 'N', ':', 'X'] = (0, 0) :=
  ⟨(get_data_cached_or_default ⟨['q', 's'], [(['A'], (7, 9))]⟩ ['A']).1 (7, 9) (by decide),
   (get_data_cached_or_default ⟨['q', 's'], [(['A'], (7, 9))]⟩
       ['U', 'N', 'K', 'N', 'O', 'W', 'N', ':', 'X']).2 (by decide)⟩

/-! ## Claim C3 — `add_symbol` is *not* idempotent on a fresh symbol -/

/-- C3 counterexample: on a fresh session whose store is empty, two calls of
`add_symbol` with the same symbol enqueue **two** `quote_add_symbols` frames,
not one — `add_symbol` takes `&self` and never reserves the key, so the
second call's guard passes again. -/
theorem add_symbol_twice_cex :
    ¬((Session.add_symbol ⟨['q', 's', '_', 't'], []⟩ ['N', 'A', ':', 'A', 'A']
        ++ Session.add_symbol ⟨['q', 's', '_', 't'], []⟩ ['N', 'A', ':', 'A', 'A']).length = 1)
    ∧ (Session.add_symbol ⟨['q', 's', '_', 't'], []⟩ ['N', 'A', ':', 'A', 'A']
        ++ Session.add_symbol ⟨['q', 's', '_', 't'], []⟩ ['N', 'A', ':', 'A', 'A']).length = 2 := by
  constructor
  · decide
  · decide

/-- C3 (amended): `add_symbol` enqueues the `quote_add_symbols` frame exactly
when the symbol is not a key of the Symbol Data Store, and is a no-op when it
is; it never modifies the store (it takes `&self`), so two calls on a symbol
absent from the store enqueue the frame twice. -/
theorem add_symbol_guard (s : Session) (sym : List Char) :
    (List.lookup sym s.data = none →
        s.add_symbol sym
          = [WSPacket.format ⟨quoteAddSymbolsM, ⟨s.session_id, some sym⟩⟩]
        ∧ (s.add_symbol sym ++ s.add_symbol sym).length = 2)
    ∧ (∀ pr, List.lookup sym s.data = some pr → s.add_symbol sym = []) := by
  constructor
  · intro h
    have hany : (s.data.any (fun e => e.1 == sym)) = false := by
      rw [any_key_eq_lookup_isSome, h]
      rfl
    constructor
    · simp [Session.add_symbol, hany]
    · simp [Session.add_symbol, hany]
  · intro pr h
    have hany : (s.data.any (fun e => e.1 == sym)) = true := by
      rw [any_key_eq_lookup_isSome, h]
      rfl
    simp [Session.add_symbol, hany]

/-- Witness for the amended C3 on a fresh session and on a session already
holding the symbol. -/
theorem add_symbol_guard_witness :
    (Session.add_symbol ⟨['q', 's', '_', 't'], []⟩ ['B', 'M', ':', 'X']
        = [WSPacket.format ⟨quoteAddSymbolsM, ⟨['q', 's', '_', 't'], some ['B', 'M', ':', 'X']⟩⟩]
      ∧ (Session.add_symbol ⟨['q', 's', '_', 't'], []⟩ ['B', 'M', ':', 'X']
          ++ Session.add_symbol ⟨['q', 's', '_', 't'], []⟩ ['B', 'M', ':', 'X']).length = 2)
    ∧ Session.add_symbol ⟨['q', 's', '_', 't'], [(['B', 'M', ':', 'X'], (1, 2))]⟩
        ['B', 'M', ':', 'X'] = [] :=
  ⟨(add_symbol_guard ⟨['q', 's', '_', 't'], []⟩ ['B', 'M', ':', 'X']).1 (by decide),
   (add_symbol_guard ⟨['q', 's', '_', 't'], [(['B', 'M', ':', 'X'], (1, 2))]⟩
       ['B', 'M', ':', 'X']).2 (1, 2) (by decide)⟩

/-! ## Claim C7 — the heartbeat round trip through the Reader pipeline

`handle_messages`/`process_messages` split the inbound text with
`parse_ws_packet` and hand each resulting unit to every registered processor
(spawned as independent tasks).  The processors are typed to receive a
classified `Packet` (`MessageProcessor = fn(&Packet, Sender) -> ...`), and
`parse_each_packet` is the crate's only producer of `Packet` values, so the
dispatch is modelled as classifying each split segment before invocation; a
unit whose classification panics only kills its own spawned task and
enqueues nothing.  A processor is modelled by the frames it enqueues for one
unit; `process_messages` returns every frame enqueued, in unit order. -/

/-- Rust `quote/session.rs::process_heartbeat`: on `Ping(num)` enqueue
`format_ws_ping(num)`, otherwise do nothing. -/
def process_heartbeat (message : Packet) : List (List Char) :=
  match message with
  | .Ping num => [format_ws_ping num]
  | _ => []

/-- Rust `quote/session.rs::process_messages`. -/
def process_messages (processors : List (Packet → List (List Char)))
    (data : List Char) : List (List Char) :=
  (parse_ws_packet data).flatMap (fun d =>
    processors.flatMap (fun processor =>
      match parse_each_packet d with
      | .ok pkt => processor pkt
      | .error _ => []))

/-- C7: with only the default heartbeat processor registered (as
`Session::new` does), feeding the Reader the raw text `"~m~4~m~~h~7"`
enqueues exactly the one frame `"~m~4~m~~h~7"`; in general the heartbeat
processor answers `Heartbeat(n)` with exactly `format_ping(n)`. -/
theorem heartbeat_roundtrip_pipeline :
    process_messages [process_heartbeat]
        ['~', 'm', '~', '4', '~', 'm', '~', '~', 'h', '~', '7']
      = [['~', 'm', '~', '4', '~', 'm', '~', '~', 'h', '~', '7']]
    ∧ ∀ num : Nat, process_heartbeat (.Ping num) = [format_ws_ping num] := by
  constructor
  · decide
  · intro num
    rfl

/-! ## Claim C4 — the Writer loop on a closed queue (code bug)

`send_message` is `loop { match rx.recv().await { Some(data) => send,
None => continue } }`.  When every sender is dropped and the queue is empty,
`recv()` resolves immediately with `None` — and the body's arm is
`continue`, so the loop spins forever re-polling a closed channel.  The body
contains no `break`: the `exited` outcome below is never produced. -/

/-- Writer-side state: pending queue items, whether every sender was dropped,
and the messages transmitted so far. -/
structure WriterState where
  queue : List (List Char)
  closed : Bool
  wire : List (List Char)
deriving DecidableEq

/-- Outcome of running the writer loop for some number of iterations. -/
inductive WriterPoll where
  | next (st : WriterState)
  | blocked (st : WriterState)
  | exited (st : WriterState)
deriving DecidableEq

/-- One iteration of the `loop` in `send_message`: a queued item is
transmitted and the loop continues; on an empty closed queue `recv` returns
`None` and the arm is `continue`; on an empty open queue `recv` suspends.
No arm exits the loop. -/
def send_message_iter (st : WriterState) : WriterPoll :=
  match st.queue with
  | d :: rest => .next ⟨rest, st.closed, st.wire ++ [d]⟩
  | [] => if st.closed then .next st else .blocked st

/-- Run the writer loop for `n` iterations. -/
def writer_run : Nat → WriterState → WriterPoll
  | 0, st => .next st
  | n + 1, st =>
      match send_message_iter st with
      | .next st' => writer_run n st'
      | .blocked st' => .blocked st'
      | .exited st' => .exited st'

/-- C4 (refuting the claim as the code stands): on a closed, drained queue
the writer loop never terminates — after any number of iterations it is
still looping in the very same state, and no iteration count ever produces
the `exited` outcome from any state, because the loop body has no exit
path. -/
theorem send_message_never_terminates :
    (∀ (n : Nat) (w : List (List Char)),
        writer_run n ⟨[], true, w⟩ = .next ⟨[], true, w⟩)
    ∧ (∀ (n : Nat) (st st' : WriterState), writer_run n st ≠ .exited st') := by
  constructor
  · intro n
    induction n with
    | zero => intro w; rfl
    | succ k ih =>
        intro w
        rw [writer_run]
        rw [show send_message_iter ⟨[], true, w⟩ = .next ⟨[], true, w⟩ from rfl]
        exact ih w
  · intro n
    induction n with
    | zero => intro st st' h; cases h
    | succ k ih =>
        intro st st'
        rw [writer_run]
        obtain ⟨q, c, w⟩ := st
        cases q with
        | nil =>
            cases c with
            | true => exact ih _ st'
            | false =>
                intro h
                simp [send_message_iter] at h
        | cons d rest => exact ih _ st'
